import Mathlib

/-!
# OpenRAG core: shallow embedding and verification

This file embeds the core orchestration logic of the OpenRAG repository
(`app/services/ingestion.py` and `app/services/query.py`) as executable Lean
definitions and proves properties of the embedded code.

Modelling conventions:
* Python exceptions raised by external collaborators (file reading, the
  ingestion pipeline, the chroma collection) are modelled as `Except String`
  values supplied by an environment record; the orchestrator's own control
  flow (the `try/except` blocks) is translated directly.
* The in-memory job registry `jobs: dict[str, JobInfo]` is modelled as an
  insertion-ordered association list, matching Python dict semantics
  (lookup by key, iteration in insertion order).
* Mutations of shared state performed by `run_ingestion` and `delete_file`
  are recorded as an explicit event trace, one event per mutating statement
  or external call, in the order the statements execute; a concurrent
  poller of the job registry observes exactly the per-statement snapshots
  obtained by replaying that trace.
-/

namespace OpenRAG

/-- `JobInfo` dataclass from `app/services/ingestion.py`
(`job_id`, `filename`, `status`, `progress`, `error` with the Python
defaults `status="processing"`, `progress=0`, `error=""`). -/
structure JobInfo where
  job_id : String
  filename : String
  status : String := "processing"
  progress : Nat := 0
  error : String := ""
  deriving Repr, DecidableEq

/-- The in-memory job registry `jobs: dict[str, JobInfo]`, as an
insertion-ordered association list from job id to record. -/
abbrev Jobs := List (String × JobInfo)

/-- `jobs.get(job_id)`: first (and, for a Python dict, only) entry with the
given key. -/
def jobsFind : Jobs → String → Option JobInfo
  | [], _ => none
  | (k, v) :: rest, id => if k = id then some v else jobsFind rest id

/-- In-place mutation of the record stored under `id` (Python mutates the
shared `JobInfo` object; functionally, the entry is replaced). -/
def jobsUpdate : Jobs → String → JobInfo → Jobs
  | [], _, _ => []
  | (k, v) :: rest, id, j =>
      if k = id then (k, j) :: jobsUpdate rest id j
      else (k, v) :: jobsUpdate rest id j

/-- Metadata map of a llama-index `Document` / node, restricted to the keys
this code base reads or writes (`file_name`, `page_label`, `sheet_name`);
`none` models an absent key. -/
structure DocMeta where
  file_name : Option String := none
  page_label : Option String := none
  sheet_name : Option String := none
  deriving Repr, DecidableEq

/-- A llama-index `Document` (an extracted segment): text plus metadata. -/
structure Document where
  text : String
  metadata : DocMeta
  deriving Repr, DecidableEq

/-- `doc.metadata.setdefault("file_name", filepath.name)` from
`run_ingestion`: set `file_name` only when not already present. -/
def setDefaultFileName (fname : String) (d : Document) : Document :=
  match d.metadata.file_name with
  | some _ => d
  | none => { d with metadata := { d.metadata with file_name := some fname } }

/-- Environment of external collaborators for `run_ingestion`:
`load` is `SimpleDirectoryReader(...).load_data()` (constructor included —
both may raise, modelled as `.error msg` carrying `str(exc)`); `pipelineRun`
is `IngestionPipeline.run` over the given documents (chunking via
`SentenceSplitter`, embedding, vector-store append — any of which may
raise), returning the number of indexed nodes on success. -/
structure IngestEnv where
  load : Except String (List Document)
  pipelineRun : List Document → Except String Nat

/-- One observable step of `run_ingestion`: a mutating assignment to the
job record, or an external call, in program order. -/
inductive IngestEvent where
  | setProgress (n : Nat)
  | setStatus (s : String)
  | setError (e : String)
  | extract
  | runPipeline (docs : List Document)
  deriving Repr, DecidableEq

/-- Effect of one event on the (shared, in-place mutated) job record;
external-call events do not touch the record. -/
def applyEvent (j : JobInfo) : IngestEvent → JobInfo
  | .setProgress n => { j with progress := n }
  | .setStatus s => { j with status := s }
  | .setError e => { j with error := e }
  | .extract => j
  | .runPipeline _ => j

/-- `run_ingestion(job_id, filepath)` from `app/services/ingestion.py`,
with `fname = filepath.name`. Returns the registry after the call together
with the trace of mutating statements and external calls, in program
order. Control flow of the source: early return when the job id is
unknown; otherwise a `try` block setting progress 10, loading, defaulting
`file_name` on every document, progress 30, progress 50, running the
pipeline, progress 90, status `completed`, progress 100; the `except`
block sets status `error` then stores `str(exc)`. -/
def run_ingestion (env : IngestEnv) (jobs : Jobs) (job_id : String)
    (fname : String) : Jobs × List IngestEvent :=
  match jobsFind jobs job_id with
  | none => (jobs, [])
  | some job =>
    let job1 := { job with progress := 10 }
    match env.load with
    | .error e =>
        let jerr := { job1 with status := "error", error := e }
        (jobsUpdate jobs job_id jerr,
         [.setProgress 10, .extract, .setStatus "error", .setError e])
    | .ok documents =>
        let documents := documents.map (setDefaultFileName fname)
        let job2 := { job1 with progress := 30 }
        let job3 := { job2 with progress := 50 }
        match env.pipelineRun documents with
        | .error e =>
            let jerr := { job3 with status := "error", error := e }
            (jobsUpdate jobs job_id jerr,
             [.setProgress 10, .extract, .setProgress 30, .setProgress 50,
              .runPipeline documents, .setStatus "error", .setError e])
        | .ok _n =>
            let job4 := { job3 with progress := 90 }
            let job5 := { job4 with status := "completed" }
            let job6 := { job5 with progress := 100 }
            (jobsUpdate jobs job_id job6,
             [.setProgress 10, .extract, .setProgress 30, .setProgress 50,
              .runPipeline documents, .setProgress 90,
              .setStatus "completed", .setProgress 100])

/-- The per-statement snapshots of the job record a concurrent poller can
observe during `run_ingestion`: the initial record followed by the record
after each trace event. Empty when the job id is unknown. -/
def ingestSnapshots (env : IngestEnv) (jobs : Jobs) (job_id : String)
    (fname : String) : List JobInfo :=
  match jobsFind jobs job_id with
  | none => []
  | some job => List.scanl applyEvent job (run_ingestion env jobs job_id fname).2

/-- `start_ingestion_job(filepath)`: registers a fresh job with the
dataclass defaults (`processing`, progress `0`, empty error). -/
def start_ingestion_job (jobs : Jobs) (job_id : String) (fname : String) : Jobs :=
  jobs ++ [(job_id, { job_id := job_id, filename := fname : JobInfo })]

/-! ## The PDF extractor (`_PDFPlumberReader.load_data`) -/

/-- Truthiness of Python's `text.strip()`: the string contains at least one
non-whitespace character. -/
def hasNonWhitespace (t : String) : Bool :=
  t.data.any (fun c => !c.isWhitespace)

/-- Decimal string for a page number (`str(i + 1)` in Python): base-10
digits of `n`, most significant first. Built on `Nat.digits` so that
injectivity is available through `Nat.ofDigits_digits`. -/
def pageLabel (n : Nat) : String :=
  ⟨((Nat.digits 10 n).map Nat.digitChar).reverse⟩

/-- Loop body of `_PDFPlumberReader.load_data`, carrying the running
0-based page index `i` from `enumerate(pdf.pages)`: a page whose extracted
text (`page.extract_text() or ""`, hence `Option String` with default
`""`) is empty or whitespace-only is skipped; otherwise one `Document` is
produced whose metadata is a copy of `extra_info` with
`page_label = str(i + 1)`. -/
def pdfLoadDataAux (extra : DocMeta) : Nat → List (Option String) → List Document
  | _, [] => []
  | i, p :: ps =>
    let text := p.getD ""
    if hasNonWhitespace text then
      { text := text, metadata := { extra with page_label := some (pageLabel (i + 1)) } }
        :: pdfLoadDataAux extra (i + 1) ps
    else
      pdfLoadDataAux extra (i + 1) ps

/-- `_PDFPlumberReader.load_data(file, extra_info)`: the pdfplumber pages
of the file are modelled as the list of their `extract_text()` results
(`none` when `extract_text` returns `None`). -/
def pdfLoadData (extra : DocMeta) (pages : List (Option String)) : List Document :=
  pdfLoadDataAux extra 0 pages

/-! ## `query_documents` (`app/services/query.py`) -/

/-- `SourceRef` dataclass from `app/services/query.py`. Text is modelled
as `List Char` (a Python `str` is a sequence of code points; slicing
`[:200]` is `List.take 200`). -/
structure SourceRef where
  file_name : String
  page : String
  sheet : String
  text_preview : List Char
  deriving Repr, DecidableEq

/-- `QueryResult` dataclass from `app/services/query.py`. -/
structure QueryResult where
  answer : String
  sources : List SourceRef
  deriving Repr, DecidableEq

/-- A retrieved node (`response.source_nodes` element): metadata plus
node text. -/
structure SourceNode where
  metadata : DocMeta
  text : List Char
  deriving Repr, DecidableEq

/-- The deduplication key computed in `query_documents`:
`(meta.get("file_name", "unknown"), meta.get("page_label", ""),
meta.get("sheet_name", ""))`. -/
def nodeKey (n : SourceNode) : String × String × String :=
  (n.metadata.file_name.getD "unknown",
   n.metadata.page_label.getD "",
   n.metadata.sheet_name.getD "")

/-- The `SourceRef` appended for a kept node: key fields plus
`node.text[:200] if node.text else ""` (the slice of an empty text is
empty, so this is `List.take 200`). -/
def mkSourceRef (n : SourceNode) : SourceRef :=
  { file_name := n.metadata.file_name.getD "unknown"
    page := n.metadata.page_label.getD ""
    sheet := n.metadata.sheet_name.getD ""
    text_preview := n.text.take 200 }

/-- The citation-building loop of `query_documents`: iterate
`response.source_nodes` in rank order with a `seen` set of keys, skipping
nodes whose key was already seen. -/
def buildSources : List SourceNode → List (String × String × String) → List SourceRef
  | [], _ => []
  | n :: rest, seen =>
    if nodeKey n ∈ seen then
      buildSources rest seen
    else
      mkSourceRef n :: buildSources rest (nodeKey n :: seen)

/-- External collaborators of `query_documents`: the chroma collection's
record count, the retriever (top-K lookup of source nodes for the
question) and the answering service (`tree_summarize` synthesis over the
retrieved passages); retrieval and synthesis both happen inside
`query_engine.query(question)`. -/
structure QueryEnv where
  count : Nat
  retrieve : String → List SourceNode
  synthesize : String → List SourceNode → String

/-- `query_documents(question)`, instrumented: besides the `QueryResult`,
the two booleans record whether the retrieval step and the answering
service were invoked. Control flow of the source: if
`collection.count() == 0`, return the fixed no-documents answer with no
sources; otherwise query the engine, strip the answer, substitute the
fallback message when the stripped answer is empty or equals
`"empty response"` case-insensitively, and build the deduplicated source
list. -/
def query_documents_run (env : QueryEnv) (question : String) :
    QueryResult × Bool × Bool :=
  if env.count = 0 then
    ({ answer := "No documents have been indexed yet. Please upload files first."
       sources := [] }, false, false)
  else
    let nodes := env.retrieve question
    let raw := env.synthesize question nodes
    let answer := raw.trim
    let answer :=
      if answer = "" ∨ answer.toLower = "empty response" then
        "No relevant information found in the indexed documents."
      else answer
    ({ answer := answer, sources := buildSources nodes [] }, true, true)

/-- `query_documents(question)`: the result seen by the caller. -/
def query_documents (env : QueryEnv) (question : String) : QueryResult :=
  (query_documents_run env question).1

/-! ## `delete_file` (`app/services/ingestion.py`) -/

/-- A persisted vector-store record: its `file_name` metadata (the field
`delete_file` filters on) and its payload (embedding plus text, opaque
here). -/
structure VecRecord where
  file_name : String
  payload : String
  deriving Repr, DecidableEq

/-- The state `delete_file` touches: the set of filenames on disk in the
upload directory, the chroma collection's records, and the job
registry. -/
structure StoreState where
  disk : List String
  vectors : List VecRecord
  jobs : Jobs
  deriving DecidableEq

/-- Observable steps of `delete_file`, in program order. -/
inductive DeleteEvent where
  | vectorDelete (fname : String)
  | diskDelete (fname : String)
  | jobCleanup (fname : String)
  deriving Repr, DecidableEq

/-- Whether `collection.delete(where={"file_name": filename})` raises
(the source catches any exception and merely logs a warning, e.g. for a
missing or empty collection). -/
structure DeleteEnv where
  deleteRaises : Bool

/-- `delete_file(filename)` from `app/services/ingestion.py`. Control
flow of the source: return `False` when the file is not on disk;
otherwise attempt the vector deletion inside `try/except` (a raise is
swallowed, leaving the records as they were), unlink the file, delete
every job whose `filename` matches, and return `True`. Returns the
result, the state after the call, and the trace of performed steps. -/
def delete_file (env : DeleteEnv) (st : StoreState) (filename : String) :
    Bool × StoreState × List DeleteEvent :=
  if filename ∈ st.disk then
    let vectors :=
      if env.deleteRaises then st.vectors
      else st.vectors.filter (fun r => r.file_name ≠ filename)
    (true,
     { disk := st.disk.erase filename
       vectors := vectors
       jobs := st.jobs.filter (fun kv => kv.2.filename ≠ filename) },
     [.vectorDelete filename, .diskDelete filename, .jobCleanup filename])
  else
    (false, st, [])

/-! ## `get_indexed_files` and `_human_size` (`app/services/ingestion.py`) -/

/-- One entry of `upload_dir.iterdir()`: name, whether it is a regular
file, and its size in bytes (`p.stat().st_size`). -/
structure DirEntry where
  name : String
  isFile : Bool
  size : Nat
  deriving Repr, DecidableEq

/-- One element of the list returned by `get_indexed_files`. -/
structure FileInfo where
  name : String
  size : String
  status : String
  deriving Repr, DecidableEq

/-- The inner loop of `get_indexed_files`: scan `jobs.values()` in
insertion order and take the first job whose `filename` matches,
defaulting to `"ready"`. -/
def statusFor : Jobs → String → String
  | [], _ => "ready"
  | (_, j) :: rest, name => if j.filename = name then j.status else statusFor rest name

/-- Python's `round(a / d)` for the `.1f` format: nearest integer, ties to
even (`d > 0`). CPython's float division by `1024` is exact (a power of
two only shifts the exponent), so for sizes below `2 ^ 53` the float the
source formats is exactly the rational `a / d` modelled here. -/
def roundHalfEvenDiv (a d : Nat) : Nat :=
  let q := a / d
  let r := a % d
  if 2 * r < d then q
  else if d < 2 * r then q + 1
  else if q % 2 = 0 then q else q + 1

/-- `f"{v:.1f}"` for the nonnegative exact rational `v = n / d`: round
`10 * v` half-to-even, then print with one decimal place. -/
def fmt1 (n d : Nat) : String :=
  let t := roundHalfEvenDiv (10 * n) d
  toString (t / 10) ++ "." ++ toString (t % 10)

/-- The unit loop of `_human_size`: the running float `nbytes` after `k`
divisions is the exact rational `n / d` with `d = 1024 ^ k`; the loop
returns at the first unit where `nbytes < 1024`, i.e. `n < 1024 * d`, and
falls through to `"TB"` after the four listed units. The separating
space of `f"{nbytes:.1f} {unit}"` is folded into the unit strings. -/
def humanSizeAux : Nat → Nat → List String → String
  | n, d, [] => fmt1 n d ++ " TB"
  | n, d, u :: us =>
      if n < 1024 * d then fmt1 n d ++ u
      else humanSizeAux n (1024 * d) us

/-- `_human_size(nbytes)` from `app/services/ingestion.py`. -/
def human_size (nbytes : Nat) : String :=
  humanSizeAux nbytes 1 [" B", " KB", " MB", " GB"]

/-- Python's `name.startswith(".")`: the first character is a dot. -/
def startsWithDot (s : String) : Bool :=
  s.data.head? == some '.'

/-- `get_indexed_files()` from `app/services/ingestion.py`, over the
sorted directory listing (a nonexistent upload directory is the empty
listing, for which the source also returns `[]`): keep regular files
whose name does not start with `"."`, annotate each with its
human-readable size and its job status. -/
def get_indexed_files (entries : List DirEntry) (jobs : Jobs) : List FileInfo :=
  match entries with
  | [] => []
  | e :: rest =>
      if e.isFile && !startsWithDot e.name then
        { name := e.name, size := human_size e.size, status := statusFor jobs e.name }
          :: get_indexed_files rest jobs
      else
        get_indexed_files rest jobs

/-! ## Derived notions and concrete fixtures used in the statements -/

/-- The (file, page, sheet) key of an emitted citation. -/
def refKey (r : SourceRef) : String × String × String :=
  (r.file_name, r.page, r.sheet)

/-- Fixture: a freshly registered job (dataclass defaults). -/
def jobA : JobInfo := { job_id := "j1", filename := "report.pdf" }

/-- Fixture: a registry holding exactly `jobA`. -/
def jobsA : Jobs := [("j1", jobA)]

/-- Fixture: environment whose extraction yields one one-page document and
whose pipeline succeeds. -/
def envHappy : IngestEnv :=
  { load := .ok [{ text := "hello", metadata := { page_label := some "1" } }]
    pipelineRun := fun _ => .ok 1 }

/-- Fixture: environment whose extraction raises. -/
def envLoadFail : IngestEnv :=
  { load := .error "boom", pipelineRun := fun _ => .ok 0 }

/-- Fixture: one retrieved node per metadata shape, with a duplicated key
(file `a.pdf`, page `1`) and an over-long text on the first node. -/
def nodeA : SourceNode :=
  { metadata := { file_name := some "a.pdf", page_label := some "1" }
    text := List.replicate 300 'x' }

/-- Fixture: second node sharing `nodeA`'s key. -/
def nodeB : SourceNode :=
  { metadata := { file_name := some "a.pdf", page_label := some "1" }
    text := ['y'] }

/-- Fixture: node with a distinct key. -/
def nodeC : SourceNode :=
  { metadata := { file_name := some "b.xlsx", sheet_name := some "Sheet1" }
    text := ['z'] }

/-- Fixture: query environment with three retrieved nodes and one record
indexed. -/
def envQuery : QueryEnv :=
  { count := 1
    retrieve := fun _ => [nodeA, nodeB, nodeC]
    synthesize := fun _ _ => "An answer." }

/-- Fixture: query environment over an empty index whose oracles would
return data if they were consulted. -/
def envQueryEmpty : QueryEnv :=
  { count := 0
    retrieve := fun _ => [nodeA]
    synthesize := fun _ _ => "An answer." }

/-- Fixture: store state with one file on disk, two vector records and one
job. -/
def storeA : StoreState :=
  { disk := ["report.pdf", "data.xlsx"]
    vectors := [{ file_name := "report.pdf", payload := "v1" },
                { file_name := "data.xlsx", payload := "v2" }]
    jobs := jobsA }

/-! ## Theorems -/

theorem jobsFind_jobsUpdate_self (jobs : Jobs) (id : String) (j j0 : JobInfo)
    (h : jobsFind jobs id = some j0) :
    jobsFind (jobsUpdate jobs id j) id = some j := by
  induction jobs with
  | nil => simp [jobsFind] at h
  | cons kv rest ih =>
    obtain ⟨k, v⟩ := kv
    by_cases hk : k = id
    · simp [jobsFind, jobsUpdate, hk]
    · simp only [jobsFind, jobsUpdate, hk, if_false] at h ⊢
      exact ih h

/-- C10: `run_ingestion` on a job id absent from the registry returns
immediately: the registry is unchanged and no step (no extraction, no
pipeline run, no job mutation) is performed — the event trace is empty. -/
theorem run_ingestion_unknown_job (env : IngestEnv) (jobs : Jobs)
    (job_id fname : String) (h : jobsFind jobs job_id = none) :
    run_ingestion env jobs job_id fname = (jobs, []) := by
  unfold run_ingestion
  rw [h]

theorem run_ingestion_unknown_job_witness :
    jobsFind jobsA "nope" = none ∧
    run_ingestion envHappy jobsA "nope" "report.pdf" = (jobsA, []) :=
  ⟨by decide, run_ingestion_unknown_job envHappy jobsA "nope" "report.pdf" (by decide)⟩

/-- C1: for a registered job id, `run_ingestion` always resolves the job
into a terminal state: the registry still holds the job, and either the
load step failed and the job ends with status `"error"` carrying the
exception message, or the pipeline step failed likewise, or both
succeeded and the job ends with status `"completed"` and progress 100.
(The embedding is a total function: no exception escapes to the
caller.) -/
theorem run_ingestion_terminal (env : IngestEnv) (jobs : Jobs)
    (job_id fname : String) (j0 : JobInfo)
    (h : jobsFind jobs job_id = some j0) :
    ∃ j1, jobsFind (run_ingestion env jobs job_id fname).1 job_id = some j1 ∧
      ((∃ e, env.load = .error e ∧ j1.status = "error" ∧ j1.error = e) ∨
       (∃ docs e, env.load = .ok docs ∧
          env.pipelineRun (docs.map (setDefaultFileName fname)) = .error e ∧
          j1.status = "error" ∧ j1.error = e) ∨
       (∃ docs n, env.load = .ok docs ∧
          env.pipelineRun (docs.map (setDefaultFileName fname)) = .ok n ∧
          j1.status = "completed" ∧ j1.progress = 100)) := by
  cases hload : env.load with
  | error e =>
    simp only [run_ingestion, h, hload]
    exact ⟨_, jobsFind_jobsUpdate_self _ _ _ _ h, Or.inl ⟨e, rfl, rfl, rfl⟩⟩
  | ok docs =>
    cases hrun : env.pipelineRun (docs.map (setDefaultFileName fname)) with
    | error e =>
      simp only [run_ingestion, h, hload, hrun]
      exact ⟨_, jobsFind_jobsUpdate_self _ _ _ _ h,
        Or.inr (Or.inl ⟨docs, e, rfl, hrun, rfl, rfl⟩)⟩
    | ok n =>
      simp only [run_ingestion, h, hload, hrun]
      exact ⟨_, jobsFind_jobsUpdate_self _ _ _ _ h,
        Or.inr (Or.inr ⟨docs, n, rfl, hrun, rfl, rfl⟩)⟩

theorem run_ingestion_terminal_witness :
    jobsFind jobsA "j1" = some jobA ∧
    ∃ j1, jobsFind (run_ingestion envLoadFail jobsA "j1" "report.pdf").1 "j1" = some j1 ∧
      ((∃ e, envLoadFail.load = .error e ∧ j1.status = "error" ∧ j1.error = e) ∨
       (∃ docs e, envLoadFail.load = .ok docs ∧
          envLoadFail.pipelineRun (docs.map (setDefaultFileName "report.pdf")) = .error e ∧
          j1.status = "error" ∧ j1.error = e) ∨
       (∃ docs n, envLoadFail.load = .ok docs ∧
          envLoadFail.pipelineRun (docs.map (setDefaultFileName "report.pdf")) = .ok n ∧
          j1.status = "completed" ∧ j1.progress = 100)) :=
  ⟨by decide, run_ingestion_terminal envLoadFail jobsA "j1" "report.pdf" jobA (by decide)⟩

/-- C5: on the happy path (load and pipeline both succeed) the steps of
`run_ingestion` happen in the specified order with the specified
checkpoints — progress 10, extraction, progress 30, progress 50, the
chunk/embed/write pipeline over the extracted segments, progress 90,
status `completed`, progress 100 — the segments handed to the pipeline
have `file_name` defaulted to the uploaded file's name exactly when it
was not already set, and the job ends as `completed` with progress
100. -/
theorem run_ingestion_happy_path (env : IngestEnv) (jobs : Jobs)
    (job_id fname : String) (j0 : JobInfo) (docs : List Document) (n : Nat)
    (hj : jobsFind jobs job_id = some j0)
    (hload : env.load = .ok docs)
    (hrun : env.pipelineRun (docs.map (setDefaultFileName fname)) = .ok n) :
    (run_ingestion env jobs job_id fname).2 =
      [.setProgress 10, .extract, .setProgress 30, .setProgress 50,
       .runPipeline (docs.map (setDefaultFileName fname)), .setProgress 90,
       .setStatus "completed", .setProgress 100] ∧
    (∀ d ∈ docs, (setDefaultFileName fname d).metadata.file_name =
        some (d.metadata.file_name.getD fname)) ∧
    jobsFind (run_ingestion env jobs job_id fname).1 job_id =
      some { j0 with status := "completed", progress := 100 } := by
  refine ⟨?_, ?_, ?_⟩
  · simp only [run_ingestion, hj, hload, hrun]
  · intro d _
    unfold setDefaultFileName
    cases hd : d.metadata.file_name <;> simp [hd]
  · simp only [run_ingestion, hj, hload, hrun]
    exact jobsFind_jobsUpdate_self _ _ _ _ hj

theorem run_ingestion_happy_path_witness :
    jobsFind jobsA "j1" = some jobA ∧
    envHappy.load = .ok [{ text := "hello", metadata := { page_label := some "1" } }] ∧
    (run_ingestion envHappy jobsA "j1" "report.pdf").2 =
      [.setProgress 10, .extract, .setProgress 30, .setProgress 50,
       .runPipeline ([{ text := "hello", metadata := { page_label := some "1" } }].map
          (setDefaultFileName "report.pdf")), .setProgress 90,
       .setStatus "completed", .setProgress 100] ∧
    jobsFind (run_ingestion envHappy jobsA "j1" "report.pdf").1 "j1" =
      some { jobA with status := "completed", progress := 100 } := by
  have h := run_ingestion_happy_path envHappy jobsA "j1" "report.pdf" jobA
    [{ text := "hello", metadata := { page_label := some "1" } }] 1
    (by decide) rfl rfl
  exact ⟨by decide, rfl, h.1, h.2.2⟩

/-- C2 counterexample: on the happy path the statement
`job.status = "completed"` executes before the final
`job.progress = 100`, so a poller observes the snapshot
(`completed`, progress 90) — a terminal status — followed by a snapshot
whose progress has changed to 100: an operation does change progress
after a terminal state is reached. -/
theorem ingest_progress_changes_after_terminal :
    (ingestSnapshots envHappy jobsA "j1" "report.pdf").get? 7 =
      some { job_id := "j1", filename := "report.pdf", status := "completed",
             progress := 90, error := "" } ∧
    (ingestSnapshots envHappy jobsA "j1" "report.pdf").get? 8 =
      some { job_id := "j1", filename := "report.pdf", status := "completed",
             progress := 100, error := "" } := by
  constructor <;> rfl

/-- C2 (amended): over the per-statement snapshots of a freshly
registered job (status `processing`, progress 0), progress is
monotonically non-decreasing and stays within 0–100, the only status
changes are `processing → completed` and `processing → error`, after
status `error` neither status nor progress changes, and after status
`completed` the status never changes and every later snapshot has
progress 100 (the single finalizing write `progress = 100` immediately
follows the transition to `completed`; nothing changes after it). -/
theorem ingest_state_machine (env : IngestEnv) (jobs : Jobs)
    (job_id fname : String) (j0 : JobInfo)
    (hj : jobsFind jobs job_id = some j0)
    (hs : j0.status = "processing") (hp : j0.progress = 0) :
    List.Chain' (fun a b => a.progress ≤ b.progress)
      (ingestSnapshots env jobs job_id fname) ∧
    (∀ s ∈ ingestSnapshots env jobs job_id fname, s.progress ≤ 100) ∧
    List.Chain' (fun a b => a.status ≠ b.status →
        a.status = "processing" ∧ (b.status = "completed" ∨ b.status = "error"))
      (ingestSnapshots env jobs job_id fname) ∧
    List.Chain' (fun a b => a.status = "error" →
        b.status = "error" ∧ b.progress = a.progress)
      (ingestSnapshots env jobs job_id fname) ∧
    List.Chain' (fun a b => a.status = "completed" →
        b.status = "completed" ∧ b.progress = 100)
      (ingestSnapshots env jobs job_id fname) := by
  obtain ⟨jid, jfn, jst, jpr, jerr⟩ := j0
  dsimp only at hs hp
  subst hs hp
  cases hload : env.load with
  | error e =>
    simp [ingestSnapshots, run_ingestion, hj, hload, List.scanl, applyEvent,
      List.chain'_cons]
  | ok docs =>
    cases hrun : env.pipelineRun (docs.map (setDefaultFileName fname)) with
    | error e =>
      simp [ingestSnapshots, run_ingestion, hj, hload, hrun, List.scanl,
        applyEvent, List.chain'_cons]
    | ok n =>
      simp [ingestSnapshots, run_ingestion, hj, hload, hrun, List.scanl,
        applyEvent, List.chain'_cons]

theorem ingest_state_machine_witness :
    jobsFind jobsA "j1" = some jobA ∧ jobA.status = "processing" ∧
    jobA.progress = 0 ∧
    List.Chain' (fun a b => a.progress ≤ b.progress)
      (ingestSnapshots envLoadFail jobsA "j1" "report.pdf") :=
  ⟨by decide, rfl, rfl,
   (ingest_state_machine envLoadFail jobsA "j1" "report.pdf" jobA
      (by decide) rfl rfl).1⟩

/-- C3: when the vector store's record count is zero, `query_documents`
returns the fixed no-documents answer with an empty citation list, and
neither the retrieval step nor the answering service is invoked (both
invocation flags are `false`, and the result does not depend on the
oracles). -/
theorem query_documents_empty_index (env : QueryEnv) (question : String)
    (h : env.count = 0) :
    query_documents_run env question =
      ({ answer := "No documents have been indexed yet. Please upload files first."
         sources := [] }, false, false) := by
  simp [query_documents_run, h]

theorem query_documents_empty_index_witness :
    envQueryEmpty.count = 0 ∧
    query_documents_run envQueryEmpty "What is in report.pdf?" =
      ({ answer := "No documents have been indexed yet. Please upload files first."
         sources := [] }, false, false) :=
  ⟨rfl, query_documents_empty_index envQueryEmpty "What is in report.pdf?" rfl⟩

/-- C7: `delete_file` on a filename that is not on disk returns `false`,
performs no step (empty trace — the vector store is not touched, nothing
is unlinked, no job is removed), and leaves the whole state unchanged. -/
theorem delete_file_missing (env : DeleteEnv) (st : StoreState)
    (filename : String) (h : filename ∉ st.disk) :
    delete_file env st filename = (false, st, []) := by
  simp [delete_file, h]

theorem delete_file_missing_witness :
    "nope.pdf" ∉ storeA.disk ∧
    delete_file { deleteRaises := false } storeA "nope.pdf" = (false, storeA, []) :=
  ⟨by decide, delete_file_missing { deleteRaises := false } storeA "nope.pdf" (by decide)⟩

/-- C6: `delete_file` on a filename present on disk returns `true` and
performs, in order, the vector-store deletion attempt, the disk unlink,
then the job cleanup. The surviving vector records are exactly those
whose `file_name` differs from the filename when the collection delete
succeeds, and are untouched (tolerated, no error) when it raises; the
file is removed from disk; the surviving registry entries are exactly
those whose job does not reference the filename. -/
theorem delete_file_existing (env : DeleteEnv) (st : StoreState)
    (filename : String) (h : filename ∈ st.disk) :
    (delete_file env st filename).1 = true ∧
    (delete_file env st filename).2.2 =
      [.vectorDelete filename, .diskDelete filename, .jobCleanup filename] ∧
    (env.deleteRaises = false →
      ∀ r : VecRecord, r ∈ (delete_file env st filename).2.1.vectors ↔
        r ∈ st.vectors ∧ r.file_name ≠ filename) ∧
    (env.deleteRaises = true →
      (delete_file env st filename).2.1.vectors = st.vectors) ∧
    (delete_file env st filename).2.1.disk = st.disk.erase filename ∧
    (∀ kv : String × JobInfo, kv ∈ (delete_file env st filename).2.1.jobs ↔
        kv ∈ st.jobs ∧ kv.2.filename ≠ filename) := by
  refine ⟨?_, ?_, ?_, ?_, ?_, ?_⟩
  · simp [delete_file, h]
  · simp [delete_file, h]
  · intro hr r
    simp [delete_file, h, hr, List.mem_filter]
  · intro hr
    simp [delete_file, h, hr]
  · simp [delete_file, h]
  · intro kv
    simp [delete_file, h, List.mem_filter]

theorem delete_file_existing_witness :
    "report.pdf" ∈ storeA.disk ∧
    (delete_file { deleteRaises := false } storeA "report.pdf").1 = true ∧
    (delete_file { deleteRaises := false } storeA "report.pdf").2.2 =
      [.vectorDelete "report.pdf", .diskDelete "report.pdf", .jobCleanup "report.pdf"] := by
  have h := delete_file_existing { deleteRaises := false } storeA "report.pdf" (by decide)
  exact ⟨by decide, h.1, h.2.1⟩

theorem refKey_mkSourceRef (n : SourceNode) : refKey (mkSourceRef n) = nodeKey n := rfl

theorem buildSources_sublist (ns : List SourceNode)
    (seen : List (String × String × String)) :
    (buildSources ns seen).Sublist (ns.map mkSourceRef) := by
  induction ns generalizing seen with
  | nil => simp [buildSources]
  | cons n rest ih =>
    by_cases hk : nodeKey n ∈ seen
    · simp only [buildSources, hk, if_pos, List.map_cons]
      exact (ih seen).cons _
    · simp only [buildSources, hk, if_neg, not_false_iff, List.map_cons]
      exact (ih _).cons₂ _

theorem buildSources_keys (ns : List SourceNode)
    (seen : List (String × String × String)) :
    ((buildSources ns seen).map refKey).Nodup ∧
    ∀ r ∈ buildSources ns seen, refKey r ∉ seen := by
  induction ns generalizing seen with
  | nil => simp [buildSources]
  | cons n rest ih =>
    by_cases hk : nodeKey n ∈ seen
    · simpa [buildSources, hk] using ih seen
    · obtain ⟨ihn, ihs⟩ := ih (nodeKey n :: seen)
      refine ⟨?_, ?_⟩
      · simp only [buildSources, hk, if_neg, not_false_iff, List.map_cons,
          List.nodup_cons, ihn, and_true, refKey_mkSourceRef]
        intro hmem
        obtain ⟨r, hr, hkey⟩ := List.mem_map.mp hmem
        exact ihs r hr (hkey ▸ List.mem_cons_self _ _)
      · intro r hr
        simp only [buildSources, hk, if_neg, not_false_iff, List.mem_cons] at hr
        rcases hr with rfl | hr
        · simpa [refKey_mkSourceRef] using hk
        · exact fun hmem => ihs r hr (List.mem_cons_of_mem _ hmem)

theorem buildSources_covers (ns : List SourceNode)
    (seen : List (String × String × String)) :
    ∀ n ∈ ns, nodeKey n ∉ seen →
      ∃ r ∈ buildSources ns seen, refKey r = nodeKey n := by
  induction ns generalizing seen with
  | nil => simp
  | cons m rest ih =>
    intro n hn hns
    rcases List.mem_cons.mp hn with rfl | hn
    · simp only [buildSources, hns, if_neg, not_false_iff]
      exact ⟨mkSourceRef n, List.mem_cons_self _ _, refKey_mkSourceRef n⟩
    · by_cases hk : nodeKey m ∈ seen
      · obtain ⟨r, hr, hkey⟩ := ih seen n hn hns
        exact ⟨r, by simp only [buildSources, hk, if_pos]; exact hr, hkey⟩
      · by_cases heq : nodeKey n = nodeKey m
        · refine ⟨mkSourceRef m, ?_, by rw [refKey_mkSourceRef, heq]⟩
          simp only [buildSources, hk, if_neg, not_false_iff]
          exact List.mem_cons_self _ _
        · have hn2 : nodeKey n ∉ nodeKey m :: seen := by
            simp [heq, hns]
          obtain ⟨r, hr, hkey⟩ := ih (nodeKey m :: seen) n hn hn2
          refine ⟨r, ?_, hkey⟩
          simp only [buildSources, hk, if_neg, not_false_iff]
          exact List.mem_cons_of_mem _ hr

theorem buildSources_first_occurrence (pre : List SourceNode)
    (n : SourceNode) (post : List SourceNode)
    (seen : List (String × String × String))
    (hpre : nodeKey n ∉ pre.map nodeKey) (hseen : nodeKey n ∉ seen) :
    mkSourceRef n ∈ buildSources (pre ++ n :: post) seen := by
  induction pre generalizing seen with
  | nil =>
    simp only [List.nil_append, buildSources, hseen, if_neg, not_false_iff]
    exact List.mem_cons_self _ _
  | cons m pre' ih =>
    simp only [List.map_cons, List.mem_cons, not_or] at hpre
    obtain ⟨hnm, hpre'⟩ := hpre
    by_cases hk : nodeKey m ∈ seen
    · simp only [List.cons_append, buildSources, hk, if_pos]
      exact ih seen hpre' hseen
    · simp only [List.cons_append, buildSources, hk, if_neg, not_false_iff]
      refine List.mem_cons_of_mem _ (ih (nodeKey m :: seen) hpre' ?_)
      simp [hnm, hseen]

/-- C4: when the index is nonempty (so that the retrieval branch runs),
the citation list of `query_documents` is `buildSources` over the
retrieved records in rank order, no two citations share the same
(file, page, sheet) key, the list is an order-preserving sub-sequence of
the ranked records' citations, the first record of each distinct key is
kept, every retrieved record's key is represented, and every text preview
is the record's text truncated to at most 200 characters. -/
theorem query_documents_citations (env : QueryEnv) (question : String)
    (h : env.count ≠ 0) :
    (query_documents env question).sources =
      buildSources (env.retrieve question) [] ∧
    (((query_documents env question).sources.map refKey).Nodup) ∧
    ((query_documents env question).sources.Sublist
      ((env.retrieve question).map mkSourceRef)) ∧
    (∀ pre n post, env.retrieve question = pre ++ n :: post →
       nodeKey n ∉ pre.map nodeKey →
       mkSourceRef n ∈ (query_documents env question).sources) ∧
    (∀ n ∈ env.retrieve question,
       ∃ r ∈ (query_documents env question).sources, refKey r = nodeKey n) ∧
    (∀ r ∈ (query_documents env question).sources,
       ∃ n ∈ env.retrieve question,
         r = mkSourceRef n ∧ r.text_preview = n.text.take 200 ∧
         r.text_preview.length ≤ 200) := by
  have hsrc : (query_documents env question).sources =
      buildSources (env.retrieve question) [] := by
    simp [query_documents, query_documents_run, h]
  refine ⟨hsrc, ?_, ?_, ?_, ?_, ?_⟩
  · rw [hsrc]; exact (buildSources_keys _ _).1
  · rw [hsrc]; exact buildSources_sublist _ _
  · intro pre n post hsplit hpre
    rw [hsrc, hsplit]
    exact buildSources_first_occurrence pre n post [] hpre (by simp)
  · intro n hn
    rw [hsrc]
    exact buildSources_covers _ _ n hn (by simp)
  · intro r hr
    rw [hsrc] at hr
    have hsub := buildSources_sublist (env.retrieve question) []
    have hmem := hsub.mem hr
    obtain ⟨n, hn, rfl⟩ := List.mem_map.mp hmem
    refine ⟨n, hn, rfl, rfl, ?_⟩
    simp [mkSourceRef, List.length_take]

set_option maxRecDepth 10000 in
theorem query_documents_citations_witness :
    envQuery.count ≠ 0 ∧
    (query_documents envQuery "q").sources =
      [mkSourceRef nodeA, mkSourceRef nodeC] ∧
    ((query_documents envQuery "q").sources.map refKey).Nodup := by
  have h := query_documents_citations envQuery "q" (by decide)
  exact ⟨by decide, by rw [h.1]; decide, h.2.1⟩

theorem get_indexed_files_names (entries : List DirEntry) (jobs : Jobs) :
    (get_indexed_files entries jobs).map FileInfo.name =
      (entries.filter (fun e => e.isFile && !startsWithDot e.name)).map
        DirEntry.name := by
  induction entries with
  | nil => simp [get_indexed_files]
  | cons e rest ih =>
    by_cases hc : (e.isFile && !startsWithDot e.name) = true
    · simp [get_indexed_files, List.filter_cons, hc, ih]
    · simp [get_indexed_files, List.filter_cons, hc, ih]

theorem get_indexed_files_mem (entries : List DirEntry) (jobs : Jobs) :
    ∀ f ∈ get_indexed_files entries jobs, ∃ e ∈ entries,
      e.isFile = true ∧ startsWithDot e.name = false ∧
      f.name = e.name ∧ f.size = human_size e.size ∧
      f.status = statusFor jobs e.name := by
  induction entries with
  | nil => simp [get_indexed_files]
  | cons e rest ih =>
    intro f hf
    by_cases hc : (e.isFile && !startsWithDot e.name) = true
    · rw [get_indexed_files, if_pos hc] at hf
      simp only [Bool.and_eq_true, Bool.not_eq_true'] at hc
      rcases List.mem_cons.mp hf with rfl | hf
      · exact ⟨e, List.mem_cons_self _ _, hc.1, hc.2, rfl, rfl, rfl⟩
      · obtain ⟨e', he', h'⟩ := ih f hf
        exact ⟨e', List.mem_cons_of_mem _ he', h'⟩
    · rw [get_indexed_files, if_neg hc] at hf
      obtain ⟨e', he', h'⟩ := ih f hf
      exact ⟨e', List.mem_cons_of_mem _ he', h'⟩

theorem statusFor_no_job (jobs : Jobs) (name : String)
    (h : ∀ kv ∈ jobs, kv.2.filename ≠ name) :
    statusFor jobs name = "ready" := by
  induction jobs with
  | nil => rfl
  | cons kv rest ih =>
    obtain ⟨k, j⟩ := kv
    have hj := h (k, j) (List.mem_cons_self _ _)
    simp only [statusFor, hj, if_neg, not_false_iff]
    exact ih fun kv hkv => h kv (List.mem_cons_of_mem _ hkv)

theorem statusFor_some_job (jobs : Jobs) (name : String)
    (h : ∃ kv ∈ jobs, kv.2.filename = name) :
    ∃ kv ∈ jobs, kv.2.filename = name ∧ statusFor jobs name = kv.2.status := by
  induction jobs with
  | nil => simp at h
  | cons kv rest ih =>
    obtain ⟨k, j⟩ := kv
    by_cases hj : j.filename = name
    · exact ⟨(k, j), List.mem_cons_self _ _, hj, by simp [statusFor, hj]⟩
    · obtain ⟨kv', hkv', hname⟩ := h
      rcases List.mem_cons.mp hkv' with rfl | hkv'
      · exact absurd hname hj
      · obtain ⟨kv'', hkv'', hn'', hs''⟩ := ih ⟨kv', hkv', hname⟩
        exact ⟨kv'', List.mem_cons_of_mem _ hkv'', hn'',
          by simp only [statusFor, hj, if_neg, not_false_iff]; exact hs''⟩

theorem human_size_units (n : Nat) :
    (n < 1024 → human_size n = fmt1 n 1 ++ " B") ∧
    (1024 ≤ n → n < 1024 ^ 2 → human_size n = fmt1 n 1024 ++ " KB") ∧
    (1024 ^ 2 ≤ n → n < 1024 ^ 3 → human_size n = fmt1 n (1024 ^ 2) ++ " MB") ∧
    (1024 ^ 3 ≤ n → n < 1024 ^ 4 → human_size n = fmt1 n (1024 ^ 3) ++ " GB") ∧
    (1024 ^ 4 ≤ n → human_size n = fmt1 n (1024 ^ 4) ++ " TB") := by
  refine ⟨?_, ?_, ?_, ?_, ?_⟩
  · intro h1
    simp only [human_size, humanSizeAux]
    rw [if_pos (by omega)]
  · intro h1 h2
    norm_num at h2
    simp only [human_size, humanSizeAux]
    rw [if_neg (by omega), if_pos (by omega)]
  · intro h1 h2
    norm_num at h1 h2
    simp only [human_size, humanSizeAux]
    rw [if_neg (by omega), if_neg (by omega), if_pos (by omega)]
    norm_num
  · intro h1 h2
    norm_num at h1 h2
    simp only [human_size, humanSizeAux]
    rw [if_neg (by omega), if_neg (by omega), if_neg (by omega), if_pos (by omega)]
    norm_num
  · intro h1
    norm_num at h1
    simp only [human_size, humanSizeAux]
    rw [if_neg (by omega), if_neg (by omega), if_neg (by omega), if_neg (by omega)]
    norm_num

/-- C8: `get_indexed_files` lists exactly the regular, non-hidden files of
the directory listing (same names, same order); each listed file carries
the human-readable rendering of its byte size and its resolved status;
the size uses units B/KB/MB/GB/TB with base-1024 conversion and one
decimal place, escalating to the next unit exactly while the value is
≥ 1024 in the current one; the status is `"ready"` when no job references
the filename and a referencing job's current status otherwise. -/
theorem get_indexed_files_spec (entries : List DirEntry) (jobs : Jobs) :
    ((get_indexed_files entries jobs).map FileInfo.name =
      (entries.filter (fun e => e.isFile && !startsWithDot e.name)).map
        DirEntry.name) ∧
    (∀ f ∈ get_indexed_files entries jobs, ∃ e ∈ entries,
       e.isFile = true ∧ startsWithDot e.name = false ∧
       f.name = e.name ∧ f.size = human_size e.size ∧
       f.status = statusFor jobs e.name) ∧
    (∀ name, (∀ kv ∈ jobs, kv.2.filename ≠ name) →
       statusFor jobs name = "ready") ∧
    (∀ name, (∃ kv ∈ jobs, kv.2.filename = name) →
       ∃ kv ∈ jobs, kv.2.filename = name ∧ statusFor jobs name = kv.2.status) ∧
    (∀ n : Nat,
       (n < 1024 → human_size n = fmt1 n 1 ++ " B") ∧
       (1024 ≤ n → n < 1024 ^ 2 → human_size n = fmt1 n 1024 ++ " KB") ∧
       (1024 ^ 2 ≤ n → n < 1024 ^ 3 → human_size n = fmt1 n (1024 ^ 2) ++ " MB") ∧
       (1024 ^ 3 ≤ n → n < 1024 ^ 4 → human_size n = fmt1 n (1024 ^ 3) ++ " GB") ∧
       (1024 ^ 4 ≤ n → human_size n = fmt1 n (1024 ^ 4) ++ " TB")) :=
  ⟨get_indexed_files_names entries jobs, get_indexed_files_mem entries jobs,
   fun name => statusFor_no_job jobs name,
   fun name => statusFor_some_job jobs name,
   fun n => human_size_units n⟩

theorem get_indexed_files_spec_witness :
    (get_indexed_files
        [{ name := ".hidden", isFile := true, size := 1 },
         { name := "report.pdf", isFile := true, size := 1280 },
         { name := "sub", isFile := false, size := 0 }] jobsA).map FileInfo.name =
      ["report.pdf"] ∧
    statusFor jobsA "zzz" = "ready" ∧
    human_size 1280 = fmt1 1280 1024 ++ " KB" ∧
    human_size 1280 = "1.2 KB" := by
  refine ⟨?_, (get_indexed_files_spec [] jobsA).2.2.1 "zzz" (by decide),
    ((get_indexed_files_spec [] jobsA).2.2.2.2 1280).2.1 (by norm_num) (by norm_num),
    by decide⟩
  rw [(get_indexed_files_spec
      [{ name := ".hidden", isFile := true, size := 1 },
       { name := "report.pdf", isFile := true, size := 1280 },
       { name := "sub", isFile := false, size := 0 }] jobsA).1]
  decide

theorem digitChar_inj_lt10 :
    ∀ a < 10, ∀ b < 10, Nat.digitChar a = Nat.digitChar b → a = b := by decide

theorem map_digitChar_injOn : ∀ l1 l2 : List Nat, (∀ x ∈ l1, x < 10) →
    (∀ x ∈ l2, x < 10) → l1.map Nat.digitChar = l2.map Nat.digitChar → l1 = l2 := by
  intro l1
  induction l1 with
  | nil =>
    intro l2 _ _ h
    cases l2 with
    | nil => rfl
    | cons b t2 => simp at h
  | cons a t1 ih =>
    intro l2 h1 h2 h
    cases l2 with
    | nil => simp at h
    | cons b t2 =>
      simp only [List.map_cons, List.cons.injEq] at h
      have hab := digitChar_inj_lt10 a (h1 a (List.mem_cons_self _ _)) b
        (h2 b (List.mem_cons_self _ _)) h.1
      rw [hab, ih t2 (fun x hx => h1 x (List.mem_cons_of_mem _ hx))
        (fun x hx => h2 x (List.mem_cons_of_mem _ hx)) h.2]

theorem pageLabel_injective (m n : Nat) (h : pageLabel m = pageLabel n) : m = n := by
  have hdata : ((Nat.digits 10 m).map Nat.digitChar).reverse =
      ((Nat.digits 10 n).map Nat.digitChar).reverse := congrArg String.data h
  have hdig := map_digitChar_injOn _ _
    (fun x hx => Nat.digits_lt_base (by norm_num) hx)
    (fun x hx => Nat.digits_lt_base (by norm_num) hx)
    (List.reverse_injective hdata)
  have := congrArg (Nat.ofDigits 10) hdig
  simpa [Nat.ofDigits_digits] using this

theorem pdfLoadDataAux_length (extra : DocMeta) (k : Nat)
    (pages : List (Option String)) :
    (pdfLoadDataAux extra k pages).length =
      (pages.filter (fun p => hasNonWhitespace (p.getD ""))).length := by
  induction pages generalizing k with
  | nil => rfl
  | cons p ps ih =>
    cases hw : hasNonWhitespace (p.getD "") with
    | true => simp [pdfLoadDataAux, hw, List.filter_cons, ih (k + 1)]
    | false => simp [pdfLoadDataAux, hw, List.filter_cons, ih (k + 1)]

theorem pdfLoadDataAux_mem_split (extra : DocMeta) (k : Nat)
    (pages : List (Option String)) :
    ∀ d ∈ pdfLoadDataAux extra k pages,
      ∃ pre p post, pages = pre ++ p :: post ∧
        hasNonWhitespace (p.getD "") = true ∧
        d.text = p.getD "" ∧
        d.metadata =
          { extra with page_label := some (pageLabel (k + pre.length + 1)) } := by
  induction pages generalizing k with
  | nil => simp [pdfLoadDataAux]
  | cons p ps ih =>
    intro d hd
    cases hw : hasNonWhitespace (p.getD "") with
    | true =>
      simp only [pdfLoadDataAux, hw, if_true] at hd
      rcases List.mem_cons.mp hd with rfl | hd
      · exact ⟨[], p, ps, rfl, hw, rfl, by simp⟩
      · obtain ⟨pre, q, post, hsplit, hq, htext, hmeta⟩ := ih (k + 1) d hd
        refine ⟨p :: pre, q, post, by rw [hsplit, List.cons_append], hq, htext, ?_⟩
        rw [hmeta, List.length_cons,
          show k + (pre.length + 1) + 1 = k + 1 + pre.length + 1 by omega]
    | false =>
      simp only [pdfLoadDataAux, hw, Bool.false_eq_true, if_false] at hd
      obtain ⟨pre, q, post, hsplit, hq, htext, hmeta⟩ := ih (k + 1) d hd
      refine ⟨p :: pre, q, post, by rw [hsplit, List.cons_append], hq, htext, ?_⟩
      rw [hmeta, List.length_cons,
        show k + (pre.length + 1) + 1 = k + 1 + pre.length + 1 by omega]

theorem pdfLoadDataAux_complete (extra : DocMeta) :
    ∀ (pre : List (Option String)) (k : Nat) (p : Option String)
      (post : List (Option String)),
      hasNonWhitespace (p.getD "") = true →
      ∃ d ∈ pdfLoadDataAux extra k (pre ++ p :: post),
        d.text = p.getD "" ∧
        d.metadata =
          { extra with page_label := some (pageLabel (k + pre.length + 1)) } := by
  intro pre
  induction pre with
  | nil =>
    intro k p post hw
    refine ⟨{ text := p.getD ""
              metadata := { extra with page_label := some (pageLabel (k + 1)) } },
      ?_, rfl, by simp⟩
    simp only [List.nil_append, pdfLoadDataAux, hw, if_true]
    exact List.mem_cons_self _ _
  | cons q pre' ih =>
    intro k p post hw
    obtain ⟨d, hd, htext, hmeta⟩ := ih (k + 1) p post hw
    refine ⟨d, ?_, htext, by
      rw [hmeta, List.length_cons,
        show k + 1 + pre'.length + 1 = k + (pre'.length + 1) + 1 by omega]⟩
    cases hq : hasNonWhitespace (q.getD "") with
    | true =>
      simp only [List.cons_append, pdfLoadDataAux, hq, if_true]
      exact List.mem_cons_of_mem _ hd
    | false =>
      simp only [List.cons_append, pdfLoadDataAux, hq, Bool.false_eq_true, if_false]
      exact hd

/-- C9: the PDF extractor produces exactly one segment per page whose
extracted text has a non-whitespace character (the lengths agree); every
produced segment comes from such a page, carries that page's text, and
its metadata is `extra_info` with `page_label` set to the page's 1-based
position in the original document; every such page produces a segment
with that label; and the 1-based position of a blank
(empty-or-whitespace) page never occurs as a `page_label`. -/
theorem pdf_extractor_spec (extra : DocMeta) (pages : List (Option String)) :
    ((pdfLoadData extra pages).length =
      (pages.filter (fun p => hasNonWhitespace (p.getD ""))).length) ∧
    (∀ d ∈ pdfLoadData extra pages,
       ∃ pre p post, pages = pre ++ p :: post ∧
         hasNonWhitespace (p.getD "") = true ∧
         d.text = p.getD "" ∧
         d.metadata = { extra with page_label := some (pageLabel (pre.length + 1)) }) ∧
    (∀ pre p post, pages = pre ++ p :: post →
       hasNonWhitespace (p.getD "") = true →
       ∃ d ∈ pdfLoadData extra pages, d.text = p.getD "" ∧
         d.metadata = { extra with page_label := some (pageLabel (pre.length + 1)) }) ∧
    (∀ pre p post, pages = pre ++ p :: post →
       hasNonWhitespace (p.getD "") = false →
       ∀ d ∈ pdfLoadData extra pages,
         d.metadata.page_label ≠ some (pageLabel (pre.length + 1))) := by
  refine ⟨pdfLoadDataAux_length extra 0 pages, ?_, ?_, ?_⟩
  · intro d hd
    obtain ⟨pre, p, post, hsplit, hw, htext, hmeta⟩ :=
      pdfLoadDataAux_mem_split extra 0 pages d hd
    exact ⟨pre, p, post, hsplit, hw, htext, by rwa [Nat.zero_add] at hmeta⟩
  · intro pre p post hsplit hw
    obtain ⟨d, hd, htext, hmeta⟩ := pdfLoadDataAux_complete extra pre 0 p post hw
    rw [Nat.zero_add] at hmeta
    exact ⟨d, hsplit ▸ hd, htext, hmeta⟩
  · intro pre p post hsplit hblank d hd hlabel
    obtain ⟨pre', p', post', hsplit', hw', _, hmeta'⟩ :=
      pdfLoadDataAux_mem_split extra 0 pages d hd
    rw [Nat.zero_add] at hmeta'
    rw [hmeta'] at hlabel
    simp only [Option.some.injEq] at hlabel
    have hlen : pre'.length = pre.length := by
      have := pageLabel_injective _ _ hlabel
      omega
    obtain ⟨hpre, htail⟩ :=
      List.append_inj (hsplit' ▸ hsplit : pre' ++ p' :: post' = pre ++ p :: post) hlen
    have hp : p' = p := by injection htail
    rw [hp] at hw'
    rw [hblank] at hw'
    exact Bool.true_eq_false ▸ hw' ▸ rfl

theorem pdf_extractor_spec_witness :
    ((pdfLoadData {} [some "Hello", some "   ", none, some "World"]).length = 2) ∧
    (∃ d ∈ pdfLoadData {} [some "Hello", some "   ", none, some "World"],
       d.text = "World" ∧
       d.metadata = { page_label := some (pageLabel 4) : DocMeta }) ∧
    (∀ d ∈ pdfLoadData {} [some "Hello", some "   ", none, some "World"],
       d.metadata.page_label ≠ some (pageLabel 2)) := by
  have h := pdf_extractor_spec {} [some "Hello", some "   ", none, some "World"]
  refine ⟨by rw [h.1]; rfl, ?_, ?_⟩
  · obtain ⟨d, hd, htext, hmeta⟩ := h.2.2.1 [some "Hello", some "   ", none]
      (some "World") [] rfl (by decide)
    exact ⟨d, hd, htext, hmeta⟩
  · exact h.2.2.2 [some "Hello"] (some "   ") [none, some "World"] rfl (by decide)

end OpenRAG
